import Mathlib

/-!
Shallow embedding of the slack-social-ai core: the entry store
(internal/history/history.go), the scheduling policy and predictor
(internal/schedule/schedule.go, predict.go) and the publish orchestrator
(publish.go).

Time model: a timestamp is a number of minutes since a fixed epoch taken to
be a Monday 00:00 in UTC (e.g. 2024-01-01T00:00Z).  Go's `time.Time` in UTC
with minute granularity is isomorphic to this model: `t.Hour()` is
`(t % 1440) / 60`, the weekday index (Monday = 0) is `(t / 1440) % 7`, and
`time.Date(y, m, d+1, h, 0, 0, 0, UTC)` is `(t / 1440 + 1) * 1440 + h * 60`
(both normalise out-of-range fields identically).  All timestamps the
program writes are produced by `Format(time.RFC3339)` in UTC, so string
equality of stored timestamps coincides with equality of instants.

An RFC3339 timestamp *string* field is modelled by `TimeStr`: the empty
string, an unparseable string, or a parseable string denoting an instant.
-/

namespace SlackSocial

/-- Model of an RFC3339 timestamp string field: empty string, a string
`time.Parse` rejects, or a string denoting the instant `t` (minutes). -/
inductive TimeStr where
  | empty : TimeStr
  | invalid : String → TimeStr
  | valid : Int → TimeStr
deriving DecidableEq

/-- `Entry` from internal/history/history.go. -/
structure Entry where
  id : String
  message : String
  status : String
  createdAt : TimeStr
  scheduledAt : TimeStr
  publishedAt : TimeStr
  updatedAt : TimeStr
deriving DecidableEq

/-- `legacyEntry` from internal/history/history.go (fields `ts`, `message`). -/
structure LegacyEntry where
  ts : TimeStr
  message : String
deriving DecidableEq

/-- `maxEntries` from internal/history/history.go. -/
def maxEntries : Nat := 200

/-! ## ClaimNextReady -/

/-- The readiness test inside `ClaimNextReady`'s loop: status is "queued",
and the scheduled-at string is empty, or parses to an instant not after
`now`.  An unparseable scheduled-at makes the loop `continue` (skip). -/
def readyAt (now : Int) (e : Entry) : Bool :=
  e.status == "queued" &&
    (match e.scheduledAt with
     | TimeStr.empty => true
     | TimeStr.invalid _ => false
     | TimeStr.valid t => decide (t ≤ now))

/-- The in-place update `ClaimNextReady` applies to the claimed entry. -/
def claimUpdate (now : Int) (e : Entry) : Entry :=
  { e with status := "publishing", updatedAt := TimeStr.valid now }

/-- `ClaimNextReady` from internal/history/history.go, as a function of the
loaded document.  Returns the claimed entry (if any), the document as left
on disk, and whether `atomicWrite` ran. -/
def ClaimNextReady (now : Int) : List Entry → Option Entry × List Entry × Bool
  | [] => (none, [], false)
  | e :: rest =>
    if readyAt now e then
      (some (claimUpdate now e), claimUpdate now e :: rest, true)
    else
      match ClaimNextReady now rest with
      | (r, rest2, w) => (r, e :: rest2, w)

/-! ## MarkPublished / ResetToQueued -/

/-- Replace the first entry satisfying `p` by its image under `f`; `none`
when no entry matches (the Go functions return a not-found error and do not
write in that case). -/
def updateFirst (p : Entry → Bool) (f : Entry → Entry) : List Entry → Option (List Entry)
  | [] => none
  | e :: rest =>
    if p e then some (f e :: rest)
    else (updateFirst p f rest).map (fun l => e :: l)

/-- `MarkPublished` from internal/history/history.go: sets status
"published" and stamps both publishedAt and updatedAt with now. -/
def MarkPublished (now : Int) (id : String) (entries : List Entry) : Option (List Entry) :=
  updateFirst (fun e => e.id == id)
    (fun e => { e with status := "published",
                       publishedAt := TimeStr.valid now,
                       updatedAt := TimeStr.valid now }) entries

/-- `ResetToQueued` from internal/history/history.go: sets status "queued"
and stamps updatedAt with now.  (publishedAt is left untouched.) -/
def ResetToQueued (now : Int) (id : String) (entries : List Entry) : Option (List Entry) :=
  updateFirst (fun e => e.id == id)
    (fun e => { e with status := "queued", updatedAt := TimeStr.valid now }) entries

/-! ## RecoverStuck -/

/-- One iteration of `RecoverStuck`'s loop on a single entry: a "publishing"
entry whose updatedAt parses and is older than `timeout` is reset to
"queued" with updatedAt stamped `now`; every other entry is untouched. -/
def recoverOne (now timeout : Int) (e : Entry) : Entry :=
  if e.status == "publishing" then
    match e.updatedAt with
    | TimeStr.valid u =>
      if now - u > timeout then
        { e with status := "queued", updatedAt := TimeStr.valid now }
      else e
    | _ => e
  else e

/-- `RecoverStuck` from internal/history/history.go, as a function of the
loaded document (the loop body is independent per index). -/
def RecoverStuck (now timeout : Int) (entries : List Entry) : List Entry :=
  entries.map (recoverOne now timeout)

/-! ## Eviction (`enforceMaxEntries`) -/

/-- Remove the first entry satisfying `p`; `none` when no entry satisfies
`p` (the `idx == -1` break in the Go loops). -/
def dropFirstWhere (p : Entry → Bool) : List Entry → Option (List Entry)
  | [] => none
  | e :: rest =>
    if p e then some rest
    else (dropFirstWhere p rest).map (fun l => e :: l)

theorem dropFirstWhere_length {p : Entry → Bool} :
    ∀ {l l' : List Entry}, dropFirstWhere p l = some l' → l'.length + 1 = l.length := by
  intro l
  induction l with
  | nil => intro l' h; simp [dropFirstWhere] at h
  | cons e rest ih =>
    intro l' h
    by_cases hp : p e = true
    · simp [dropFirstWhere, hp] at h
      simp [← h]
    · simp [dropFirstWhere, hp] at h
      obtain ⟨m, hm, rfl⟩ := h
      simp [← ih hm]

/-- One of the two eviction loops of `enforceMaxEntries`: while the list is
over `maxEntries`, remove the first (oldest) entry satisfying `p`; stop when
no such entry remains. -/
def evictLoop (p : Entry → Bool) (l : List Entry) : List Entry :=
  if l.length > maxEntries then
    match h : dropFirstWhere p l with
    | some l' => evictLoop p l'
    | none => l
  else l
termination_by l.length
decreasing_by
  have := dropFirstWhere_length h
  omega

/-- `enforceMaxEntries` from internal/history/history.go: drop oldest
"published" entries while over the cap, then oldest "queued" entries, and
as a last resort hard-trim from the front (`entries[len-maxEntries:]`). -/
def enforceMaxEntries (entries : List Entry) : List Entry :=
  if entries.length ≤ maxEntries then entries
  else
    let a := evictLoop (fun e => e.status == "published") entries
    let b := evictLoop (fun e => e.status == "queued") a
    if b.length > maxEntries then b.drop (b.length - maxEntries) else b

/-! ## Migration -/

/-- `needsMigration` from internal/history/history.go.  `legacyView` is the
result of unmarshalling the raw file as `[]legacyEntry` (`none` = JSON
error, or no raw bytes at all). -/
def needsMigration (entries : List Entry) (legacyView : Option (List LegacyEntry)) : Bool :=
  if entries.isEmpty then false
  else if entries.all (fun e => e.id == "") then
    match legacyView with
    | none => false
    | some ls => ls.any (fun l => l.message != "" && !(l.ts == TimeStr.empty))
  else false

/-- Model of the first 8 characters of `hex.EncodeToString(h[:])` —
hex output is ASCII, so the byte slice `[:8]` is the first 8 characters. -/
def hexTake8 (s : String) : String := String.mk (s.data.take 8)

/-- `migrateFromLegacy` from internal/history/history.go, parametrised by
the hash `hash ts i message` modelling
`hex.EncodeToString(sha256.Sum256("%s:%d:%s"))` (a 64-character hex
string); the new id is its first 8 characters.  Status is forced to
"published" and both createdAt and publishedAt copy the legacy timestamp. -/
def migrateFromLegacy (hash : TimeStr → Nat → String → String)
    (legacy : List LegacyEntry) : List Entry :=
  legacy.enum.map (fun p =>
    { id := hexTake8 (hash p.2.ts p.1 p.2.message)
      message := p.2.message
      status := "published"
      createdAt := p.2.ts
      scheduledAt := TimeStr.empty
      publishedAt := p.2.ts
      updatedAt := TimeStr.empty })

/-- The migration decision inside `Load` (and `Append`): when the loaded
document looks legacy, replace it by the migrated form, otherwise keep it. -/
def migrateIfNeeded (hash : TimeStr → Nat → String → String)
    (entries : List Entry) (legacyView : Option (List LegacyEntry)) : List Entry :=
  if needsMigration entries legacyView then
    migrateFromLegacy hash (legacyView.getD [])
  else entries

/-! ## Append -/

/-- The fresh `Entry` built at the top of `Append`: `newId` is the value
returned by `generateID()` (a random 8-hex-char string, with no check
against ids already in the store). -/
def newEntry (newId message status : String) (now : Int) (scheduledAt : Option Int) : Entry :=
  { id := newId
    message := message
    status := status
    createdAt := TimeStr.valid now
    scheduledAt :=
      match scheduledAt with
      | none => TimeStr.empty
      | some t => TimeStr.valid t
    publishedAt := if status == "published" then TimeStr.valid now else TimeStr.empty
    updatedAt := TimeStr.empty }

/-- `Append` from internal/history/history.go: build the entry, migrate the
loaded document if it looks legacy, append, apply eviction, persist.
Returns the stored copy and the persisted document. -/
def Append (hash : TimeStr → Nat → String → String)
    (newId message status : String) (now : Int) (scheduledAt : Option Int)
    (entries : List Entry) (legacyView : Option (List LegacyEntry)) :
    Entry × List Entry :=
  let entry := newEntry newId message status now scheduledAt
  (entry, enforceMaxEntries (migrateIfNeeded hash entries legacyView ++ [entry]))

/-! ## Scheduling policy (internal/schedule/schedule.go) -/

/-- `Schedule` from internal/schedule/schedule.go. -/
structure Schedule where
  postEveryMinutes : Int
  startHour : Int
  endHour : Int
  weekdays : List String
deriving DecidableEq

/-- `DefaultSchedule`: every 180 min, 9-17, Monday through Friday. -/
def DefaultSchedule : Schedule :=
  { postEveryMinutes := 180
    startHour := 9
    endHour := 17
    weekdays := ["mon", "tue", "wed", "thu", "fri"] }

/-- `Schedule.PostEvery()` expressed in minutes. -/
def postEvery (s : Schedule) : Int := s.postEveryMinutes

/-- `t.Hour()`: the hour-of-day of the instant `t` (minutes since a
midnight epoch). -/
def hourOf (t : Int) : Int := (t.emod 1440) / 60

/-- The lowercased three-letter weekday of `t`
(`strings.ToLower(t.Weekday().String()[:3])`); the epoch is a Monday. -/
def weekdayAbbrev (t : Int) : String :=
  ["mon", "tue", "wed", "thu", "fri", "sat", "sun"].getD ((t.ediv 1440).emod 7).toNat "mon"

/-- `Schedule.IsActiveAt` from internal/schedule/schedule.go. -/
def IsActiveAt (s : Schedule) (t : Int) : Bool :=
  s.weekdays.contains (weekdayAbbrev t) &&
    (decide (s.startHour ≤ hourOf t) && decide (hourOf t < s.endHour))

/-- `time.Date(t.Year(), t.Month(), t.Day(), h, 0, 0, 0, loc)`: hour `h`
on `t`'s civil day (normalising out-of-range `h` exactly as Go does). -/
def dayHour (t h : Int) : Int := t.ediv 1440 * 1440 + h * 60

/-- The body of `AdvanceToActive`'s bounded scan (`for range 15`). -/
def advanceLoop (s : Schedule) : Nat → Int → Int
  | 0, t => t
  | n + 1, t =>
    if hourOf t < s.startHour ∧ IsActiveAt s (dayHour t s.startHour) = true then
      dayHour t s.startHour
    else
      let t2 := dayHour t s.startHour + 1440
      if IsActiveAt s t2 then t2 else advanceLoop s n t2

/-- `AdvanceToActive` from internal/schedule/predict.go. -/
def AdvanceToActive (t : Int) (s : Schedule) : Int :=
  if IsActiveAt s t then t else advanceLoop s 15 t

/-! ## Publish predictor (internal/schedule/predict.go) -/

/-- `launchdInterval` (10 minutes), in minutes. -/
def launchdInterval : Int := 10

/-- `Prediction` from internal/schedule/predict.go. -/
structure Prediction where
  entry : Entry
  position : Nat
  publishAt : Int
  approximate : Bool
deriving DecidableEq

/-- The loop of `PredictPublishTimes`: thread the cursor through the
entries, jumping to a later explicit scheduledAt, advancing into the active
window, recording the prediction, then stepping by `interval`. -/
def predictLoop (s : Schedule) (interval : Int) :
    List Entry → Nat → Int → List Prediction
  | [], _, _ => []
  | e :: rest, i, cursor =>
    let cursor1 :=
      match e.scheduledAt with
      | TimeStr.valid sch => if cursor < sch then sch else cursor
      | _ => cursor
    let cursor2 := AdvanceToActive cursor1 s
    { entry := e, position := i + 1, publishAt := cursor2, approximate := decide (i > 0) } ::
      predictLoop s interval rest (i + 1) (cursor2 + interval)

/-- `PredictPublishTimes` from internal/schedule/predict.go.
`lastPublished = none` models the zero `time.Time`. -/
def PredictPublishTimes (entries : List Entry) (s : Schedule)
    (lastPublished : Option Int) (now : Int) : List Prediction :=
  if entries.isEmpty then []
  else
    let interval := max (postEvery s) launchdInterval
    let cursor :=
      match lastPublished with
      | some lp =>
        if postEvery s > 0 ∧ lp + postEvery s > now then lp + postEvery s else now
      | none => now
    predictLoop s interval entries 0 cursor

/-- Spec-worded companion of the predictor, for the refinement claim: the
cursor starts at `max(now, lastPublished + MinInterval)` when
`MinInterval > 0` and a last-published time exists, otherwise at `now`;
each step jumps to a later explicit scheduledAt (i.e. to the max of cursor
and scheduledAt), advances to the next active window, records that, then
advances by `max(MinInterval, wake floor)`. -/
def specCursorStart (s : Schedule) (lastPublished : Option Int) (now : Int) : Int :=
  match lastPublished with
  | some lp => if 0 < postEvery s then max now (lp + postEvery s) else now
  | none => now

/-- Spec-worded per-entry cursor adjustment before recording a prediction. -/
def specAdjust (s : Schedule) (cursor : Int) (e : Entry) : Int :=
  AdvanceToActive
    (match e.scheduledAt with
     | TimeStr.valid sch => max cursor sch
     | _ => cursor) s

/-- Spec-worded predictor loop. -/
def specPredictLoop (s : Schedule) (interval : Int) :
    List Entry → Nat → Int → List Prediction
  | [], _, _ => []
  | e :: rest, i, cursor =>
    let c := specAdjust s cursor e
    { entry := e, position := i + 1, publishAt := c, approximate := decide (i > 0) } ::
      specPredictLoop s interval rest (i + 1) (c + interval)

/-- Spec-worded predictor. -/
def specPredict (entries : List Entry) (s : Schedule)
    (lastPublished : Option Int) (now : Int) : List Prediction :=
  specPredictLoop s (max (postEvery s) launchdInterval) entries 0
    (specCursorStart s lastPublished now)

/-! ## Publish orchestrator (publish.go) -/

/-- `LastPublishedTime` from internal/history/history.go: the latest
parseable publishedAt among "published" entries (`none` = the zero time). -/
def lastPublishedTime (entries : List Entry) : Option Int :=
  entries.foldl
    (fun latest e =>
      if e.status == "published" then
        match e.publishedAt with
        | TimeStr.valid t =>
          match latest with
          | none => some t
          | some l => if l < t then some t else some l
        | _ => latest
      else latest)
    none

/-- The structured outcomes of `PublishCmd.publishOne`. -/
inductive Outcome where
  | ok : Outcome
  | outsideSchedule : Outcome
  | tooSoon : Int → Outcome
  | noQueued : Outcome
  | webhookFailed : Outcome
deriving DecidableEq

/-- The frequency guard of `publishOne`: when `PostEvery() > 0`, a last
published time exists and less than `PostEvery()` has elapsed, the next
eligible instant; otherwise `none`. -/
def freqGuard (s : Schedule) (now : Int) (entries : List Entry) : Option Int :=
  if postEvery s > 0 then
    match lastPublishedTime entries with
    | some lp => if now - lp < postEvery s then some (lp + postEvery s) else none
    | none => none
  else none

/-- The stuck-recovery timeout `publishOne` passes to `RecoverStuck`
(5 minutes), in minutes. -/
def stuckTimeout : Int := 5

/-- `PublishCmd.publishOne` from publish.go, as a function of the store
document.  `sendOk` is the result of `slack.SendWebhook`; `finalizeOk`
tells whether `MarkPublished`'s persist succeeded (its error is logged and
ignored, so on failure the document stays as the claim left it). -/
def publishOne (s : Schedule) (now : Int) (sendOk finalizeOk : Bool)
    (entries : List Entry) : Outcome × List Entry :=
  if IsActiveAt s now = false then (Outcome.outsideSchedule, entries)
  else
    match freqGuard s now entries with
    | some next => (Outcome.tooSoon next, entries)
    | none =>
      let e1 := RecoverStuck now stuckTimeout entries
      match ClaimNextReady now e1 with
      | (none, e2, _) => (Outcome.noQueued, e2)
      | (some entry, e2, _) =>
        if sendOk then
          (Outcome.ok,
           if finalizeOk then (MarkPublished now entry.id e2).getD e2 else e2)
        else
          (Outcome.webhookFailed, (ResetToQueued now entry.id e2).getD e2)

/-! ## Sample entries used by witnesses and counterexamples -/

/-- A queued entry with no explicit schedule. -/
def sampleQueued : Entry :=
  { id := "q1", message := "hello", status := "queued", createdAt := TimeStr.valid 0,
    scheduledAt := TimeStr.empty, publishedAt := TimeStr.empty, updatedAt := TimeStr.empty }

/-- A second queued entry. -/
def sampleQueued2 : Entry :=
  { id := "q2", message := "world", status := "queued", createdAt := TimeStr.valid 1,
    scheduledAt := TimeStr.empty, publishedAt := TimeStr.empty, updatedAt := TimeStr.empty }

/-- A third queued entry. -/
def sampleQueued3 : Entry :=
  { id := "q3", message := "again", status := "queued", createdAt := TimeStr.valid 2,
    scheduledAt := TimeStr.empty, publishedAt := TimeStr.empty, updatedAt := TimeStr.empty }

/-- A published entry. -/
def samplePublished : Entry :=
  { id := "p1", message := "sent", status := "published", createdAt := TimeStr.valid 0,
    scheduledAt := TimeStr.empty, publishedAt := TimeStr.valid 3, updatedAt := TimeStr.valid 3 }

/-- A publishing (claimed) entry whose updatedAt parses to 100. -/
def samplePublishing : Entry :=
  { id := "w1", message := "work", status := "publishing", createdAt := TimeStr.valid 0,
    scheduledAt := TimeStr.empty, publishedAt := TimeStr.empty, updatedAt := TimeStr.valid 100 }

/-! ## Claim C8 -/

/-- Claim C8: `IsActiveAt s t` holds iff `t`'s weekday abbreviation is in
the schedule's weekday list and the hour of `t` lies in the half-open
window `[startHour, endHour)`; under the default policy, Monday 09:00
(t = 540) is active, Monday 17:00 (t = 1020) is not, and no instant on a
Saturday (weekday index 5) is ever active. -/
theorem isActiveAt_window_characterisation :
    (∀ (s : Schedule) (t : Int),
        IsActiveAt s t = true ↔
          weekdayAbbrev t ∈ s.weekdays ∧ s.startHour ≤ hourOf t ∧ hourOf t < s.endHour)
    ∧ IsActiveAt DefaultSchedule 540 = true
    ∧ IsActiveAt DefaultSchedule 1020 = false
    ∧ (∀ t : Int, (t.ediv 1440).emod 7 = 5 → IsActiveAt DefaultSchedule t = false) := by
  refine ⟨?_, by decide, by decide, ?_⟩
  · intro s t
    simp [IsActiveAt, List.contains_eq_any_beq, List.any_eq_true, and_assoc,
      eq_comm (b := weekdayAbbrev t)]
  · intro t h
    simp [IsActiveAt, weekdayAbbrev, h, DefaultSchedule]

/-- Witness for claim C8 at concrete inputs: Monday 09:00 under the default
policy, and a Saturday instant (t = 5 · 1440 = Saturday 00:00). -/
theorem isActiveAt_window_characterisation_witness :
    (IsActiveAt DefaultSchedule 540 = true ↔
      weekdayAbbrev 540 ∈ DefaultSchedule.weekdays ∧
        DefaultSchedule.startHour ≤ hourOf 540 ∧ hourOf 540 < DefaultSchedule.endHour)
    ∧ ((7200 : Int).ediv 1440).emod 7 = 5
    ∧ IsActiveAt DefaultSchedule 7200 = false :=
  ⟨isActiveAt_window_characterisation.1 DefaultSchedule 540, by decide,
    isActiveAt_window_characterisation.2.2.2 7200 (by decide)⟩

/-! ## Claim C1 -/

/-- Claim C1: `ClaimNextReady` claims the first entry, in stored order,
with status "queued" and an empty or non-future scheduledAt (`readyAt`);
every entry before it is ineligible and left unchanged, the claimed entry
gets status "publishing" and updatedAt stamped with now, the entries after
it are unchanged, the document is persisted, and the claimed copy is
returned. -/
theorem claimNextReady_claims_first_eligible (now : Int) (pre : List Entry)
    (e : Entry) (post : List Entry)
    (hpre : ∀ x ∈ pre, readyAt now x = false) (he : readyAt now e = true) :
    ClaimNextReady now (pre ++ e :: post)
      = (some (claimUpdate now e), pre ++ claimUpdate now e :: post, true) := by
  induction pre with
  | nil => simp [ClaimNextReady, he]
  | cons a rest ih =>
    have ha : readyAt now a = false := hpre a (by simp)
    have ih' := ih (fun x hx => hpre x (List.mem_cons_of_mem _ hx))
    simp [ClaimNextReady, ha, ih']

/-- Witness for claim C1: a published entry precedes a queued one; the
queued one is claimed and the published one is untouched. -/
theorem claimNextReady_claims_first_eligible_witness :
    ClaimNextReady 10 ([samplePublished] ++ sampleQueued :: [sampleQueued2])
      = (some (claimUpdate 10 sampleQueued),
         [samplePublished] ++ claimUpdate 10 sampleQueued :: [sampleQueued2], true) :=
  claimNextReady_claims_first_eligible 10 [samplePublished] sampleQueued [sampleQueued2]
    (by decide) (by decide)

/-! ## Claim C10 -/

/-- Claim C10: when no entry is eligible (no "queued" entry whose
scheduledAt is empty or at most now), `ClaimNextReady` returns none, the
document is exactly what it read, and no write happens. -/
theorem claimNextReady_no_eligible_no_write (now : Int) (entries : List Entry)
    (h : ∀ e ∈ entries, readyAt now e = false) :
    ClaimNextReady now entries = (none, entries, false) := by
  induction entries with
  | nil => rfl
  | cons a rest ih =>
    have ha : readyAt now a = false := h a (by simp)
    have ih' := ih (fun x hx => h x (List.mem_cons_of_mem _ hx))
    simp [ClaimNextReady, ha, ih']

/-- Witness for claim C10: a store holding a published entry and a queued
entry scheduled strictly in the future yields no claim and no write. -/
theorem claimNextReady_no_eligible_no_write_witness :
    ClaimNextReady 10
        [samplePublished, { sampleQueued with scheduledAt := TimeStr.valid 99 }]
      = (none, [samplePublished, { sampleQueued with scheduledAt := TimeStr.valid 99 }],
         false) :=
  claimNextReady_no_eligible_no_write 10 _ (by decide)

/-! ## Claim C5 -/

/-- Claim C5: a "publishing" entry with parseable updatedAt `u` is left
unchanged by `RecoverStuck` when `now - u < timeout` and reset to "queued"
with updatedAt stamped now when `now - u > timeout`; entries whose status
is not "publishing" are never modified; `RecoverStuck` acts entrywise. -/
theorem recoverStuck_timeout_boundary (now timeout u : Int) (e : Entry)
    (entries : List Entry) :
    (e.status = "publishing" → e.updatedAt = TimeStr.valid u → now - u < timeout →
        recoverOne now timeout e = e)
    ∧ (e.status = "publishing" → e.updatedAt = TimeStr.valid u → now - u > timeout →
        recoverOne now timeout e
          = { e with status := "queued", updatedAt := TimeStr.valid now })
    ∧ (e.status ≠ "publishing" → recoverOne now timeout e = e)
    ∧ RecoverStuck now timeout entries = entries.map (recoverOne now timeout) := by
  refine ⟨?_, ?_, ?_, rfl⟩
  · intro h1 h2 h3
    simp only [recoverOne, h1, h2]
    rw [if_pos (by decide), if_neg (by omega)]
  · intro h1 h2 h3
    simp only [recoverOne, h1, h2]
    rw [if_pos (by decide), if_pos h3]
  · intro h1
    simp only [recoverOne]
    rw [if_neg (by simpa using h1)]

/-- Witness for claim C5: a publishing entry last updated at 100 survives
`RecoverStuck` at now = 120 with timeout 30, and is reset with timeout 10. -/
theorem recoverStuck_timeout_boundary_witness :
    recoverOne 120 30 samplePublishing = samplePublishing
    ∧ recoverOne 120 10 samplePublishing
        = { samplePublishing with status := "queued", updatedAt := TimeStr.valid 120 }
    ∧ recoverOne 120 10 samplePublished = samplePublished :=
  ⟨(recoverStuck_timeout_boundary 120 30 100 samplePublishing []).1 rfl rfl (by decide),
   (recoverStuck_timeout_boundary 120 10 100 samplePublishing []).2.1 rfl rfl (by decide),
   (recoverStuck_timeout_boundary 120 10 100 samplePublished []).2.2.1 (by decide)⟩

/-! ## Claim C9 -/

theorem hexTake8_ne_empty {s : String} (hs : s ≠ "") : hexTake8 s ≠ "" := by
  intro hcontra
  have hdata : s.data.take 8 = [] := congrArg String.data hcontra
  rcases List.take_eq_nil_iff.mp hdata with h8 | hnil
  · exact absurd h8 (by decide)
  · apply hs
    cases s
    simp_all

/-- Claim C9: migration is idempotent — every entry produced by
`migrateFromLegacy` carries a non-empty id (the hash is a 64-character hex
string, so its 8-character head is non-empty), hence the migration-needed
check on a migrated document is false and loading it again returns it
unchanged. -/
theorem migration_idempotent (hash : TimeStr → Nat → String → String)
    (hne : ∀ ts i m, hash ts i m ≠ "")
    (legacy : List LegacyEntry) (view : Option (List LegacyEntry)) :
    needsMigration (migrateFromLegacy hash legacy) view = false
    ∧ migrateIfNeeded hash (migrateFromLegacy hash legacy) view
        = migrateFromLegacy hash legacy := by
  have hmain : needsMigration (migrateFromLegacy hash legacy) view = false := by
    cases legacy with
    | nil => simp [migrateFromLegacy, needsMigration]
    | cons l rest =>
      have hall : (migrateFromLegacy hash (l :: rest)).all (fun e => e.id == "") = false := by
        rw [List.all_eq_false]
        refine ⟨{ id := hexTake8 (hash l.ts 0 l.message), message := l.message,
                  status := "published", createdAt := l.ts, scheduledAt := TimeStr.empty,
                  publishedAt := l.ts, updatedAt := TimeStr.empty }, ?_, ?_⟩
        · simp [migrateFromLegacy, List.enum_cons]
        · simpa using hexTake8_ne_empty (hne l.ts 0 l.message)
      have hcons : (migrateFromLegacy hash (l :: rest)).isEmpty = false := by
        simp [migrateFromLegacy, List.enum_cons]
      simp [needsMigration, hcons, hall]
  exact ⟨hmain, by simp [migrateIfNeeded, hmain]⟩

/-- Witness for claim C9: a concrete one-record legacy document and a
constant 64-character hash. -/
theorem migration_idempotent_witness :
    needsMigration
        (migrateFromLegacy (fun _ _ _ => "abcd1234") [⟨TimeStr.valid 3, "old post"⟩])
        (some [⟨TimeStr.valid 3, "old post"⟩])
      = false
    ∧ migrateIfNeeded (fun _ _ _ => "abcd1234")
        (migrateFromLegacy (fun _ _ _ => "abcd1234") [⟨TimeStr.valid 3, "old post"⟩])
        (some [⟨TimeStr.valid 3, "old post"⟩])
      = migrateFromLegacy (fun _ _ _ => "abcd1234") [⟨TimeStr.valid 3, "old post"⟩] :=
  migration_idempotent (fun _ _ _ => "abcd1234")
    (fun _ _ _ => (by decide : ("abcd1234" : String) ≠ ""))
    [⟨TimeStr.valid 3, "old post"⟩]
    (some [⟨TimeStr.valid 3, "old post"⟩])

/-! ## Claim C6 -/

theorem predictLoop_eq_specLoop (s : Schedule) (interval : Int) :
    ∀ (l : List Entry) (i : Nat) (cursor : Int),
      predictLoop s interval l i cursor = specPredictLoop s interval l i cursor := by
  intro l
  induction l with
  | nil => intro i cursor; rfl
  | cons e rest ih =>
    intro i cursor
    have hadj :
        (match e.scheduledAt with
         | TimeStr.valid sch => if cursor < sch then sch else cursor
         | _ => cursor)
          = (match e.scheduledAt with
             | TimeStr.valid sch => max cursor sch
             | _ => cursor) := by
      cases e.scheduledAt with
      | valid sch =>
        simp only
        rcases lt_or_ge cursor sch with hlt | hge
        · rw [if_pos hlt, max_eq_right (le_of_lt hlt)]
        · rw [if_neg (not_lt.mpr hge), max_eq_left hge]
      | empty => rfl
      | invalid _ => rfl
    simp only [predictLoop, specPredictLoop, specAdjust, hadj, ih]

/-- Claim C6: the predictor equals its spec-worded description — the cursor
starts at `max(now, lastPublished + MinInterval)` when the minimum interval
is positive and a last-published time exists (otherwise at now), and each
queued entry's prediction is the cursor jumped to a later explicit
scheduledAt, advanced to the next active window, the cursor then stepping
by `max(MinInterval, 10 minutes)`; under the default policy with
now = Monday 09:00 (t = 540) and no last-published time, three queued
entries are predicted at Monday 09:00, Monday 12:00 and Monday 15:00
(t = 540, 720, 900), only the first exact. -/
theorem predict_matches_spec_and_scenario :
    (∀ (entries : List Entry) (s : Schedule) (lastPublished : Option Int) (now : Int),
        PredictPublishTimes entries s lastPublished now
          = specPredict entries s lastPublished now)
    ∧ PredictPublishTimes [sampleQueued, sampleQueued2, sampleQueued3]
        DefaultSchedule none 540
      = [{ entry := sampleQueued, position := 1, publishAt := 540, approximate := false },
         { entry := sampleQueued2, position := 2, publishAt := 720, approximate := true },
         { entry := sampleQueued3, position := 3, publishAt := 900, approximate := true }] := by
  constructor
  · intro entries s lastPublished now
    cases entries with
    | nil => simp [PredictPublishTimes, specPredict, specPredictLoop]
    | cons e rest =>
      have hstart :
          (match lastPublished with
           | some lp =>
             if postEvery s > 0 ∧ lp + postEvery s > now then lp + postEvery s else now
           | none => now)
            = specCursorStart s lastPublished now := by
        cases lastPublished with
        | none => rfl
        | some lp =>
          simp only [specCursorStart]
          rcases lt_or_ge 0 (postEvery s) with hpos | hnonpos
          · rcases lt_or_ge now (lp + postEvery s) with hlt | hge
            · rw [if_pos ⟨hpos, hlt⟩, if_pos hpos, max_eq_right (le_of_lt hlt)]
            · rw [if_neg (by omega), if_pos hpos, max_eq_left hge]
          · rw [if_neg (by omega), if_neg (by omega)]
      simp only [PredictPublishTimes, specPredict, List.isEmpty_cons, if_neg]
      rw [hstart, predictLoop_eq_specLoop]
      simp
  · decide

/-! ## Sublist facts about eviction (shared by C2, C3, C4) -/

theorem dropFirstWhere_sublist {p : Entry → Bool} :
    ∀ {l l' : List Entry}, dropFirstWhere p l = some l' → l'.Sublist l := by
  intro l
  induction l with
  | nil => intro l' h; simp [dropFirstWhere] at h
  | cons e rest ih =>
    intro l' h
    by_cases hp : p e = true
    · simp [dropFirstWhere, hp] at h
      exact h ▸ List.sublist_cons_self e rest
    · simp [dropFirstWhere, hp] at h
      obtain ⟨m, hm, rfl⟩ := h
      exact (ih hm).cons₂ e

theorem evictLoop_sublist (p : Entry → Bool) (l : List Entry) :
    (evictLoop p l).Sublist l := by
  generalize hn : l.length = n
  induction n using Nat.strong_induction_on generalizing l with
  | _ n ih =>
    rw [evictLoop]
    by_cases hlen : l.length > maxEntries
    · rw [if_pos hlen]
      cases hdrop : dropFirstWhere p l with
      | none => exact List.Sublist.refl l
      | some l' =>
        have hlt : l'.length < n := by
          have := dropFirstWhere_length hdrop
          omega
        exact (ih l'.length (by omega) l' rfl).trans (dropFirstWhere_sublist hdrop)
    · rw [if_neg hlen]

theorem enforceMaxEntries_sublist (l : List Entry) :
    (enforceMaxEntries l).Sublist l := by
  unfold enforceMaxEntries
  by_cases hlen : l.length ≤ maxEntries
  · rw [if_pos hlen]
  · rw [if_neg hlen]
    have h1 := evictLoop_sublist (fun e => e.status == "published") l
    have h2 := evictLoop_sublist (fun e => e.status == "queued")
      (evictLoop (fun e => e.status == "published") l)
    set b := evictLoop (fun e => e.status == "queued")
      (evictLoop (fun e => e.status == "published") l) with hb
    by_cases hover : b.length > maxEntries
    · simp only [if_pos hover]
      exact ((b.drop_sublist _).trans h2).trans h1
    · simp only [if_neg hover]
      exact h2.trans h1

theorem all_of_sublist {q : Entry → Bool} {l' l : List Entry}
    (hs : l'.Sublist l) (h : l.all q = true) : l'.all q = true := by
  rw [List.all_eq_true] at h ⊢
  exact fun x hx => h x (hs.subset hx)

/-! ## Claim C2 -/

/-- The per-entry invariant of claim C2: publishedAt is non-empty iff the
status is "published". -/
def pubAtInvariant (e : Entry) : Bool :=
  (!(e.publishedAt == TimeStr.empty)) == (e.status == "published")

theorem pubAtInvariant_iff (e : Entry) :
    pubAtInvariant e = true ↔ (e.publishedAt ≠ TimeStr.empty ↔ e.status = "published") := by
  unfold pubAtInvariant
  cases hb : e.publishedAt == TimeStr.empty with
  | true =>
    have hb' : e.publishedAt = TimeStr.empty := by simpa using hb
    cases hsb : e.status == "published" with
    | true =>
      have hs' : e.status = "published" := by simpa using hsb
      simp [hb', hs']
    | false =>
      have hs' : ¬(e.status = "published") := by simpa using hsb
      simp [hb', hs']
  | false =>
    have hb' : ¬(e.publishedAt = TimeStr.empty) := by simpa using hb
    cases hsb : e.status == "published" with
    | true =>
      have hs' : e.status = "published" := by simpa using hsb
      simp [hb', hs']
    | false =>
      have hs' : ¬(e.status = "published") := by simpa using hsb
      simp [hb', hs']

/-- The published sample entry after `ResetToQueued` at now = 7. -/
def samplePublishedReset : Entry :=
  { samplePublished with status := "queued", updatedAt := TimeStr.valid 7 }

/-- The publishing sample entry after `ResetToQueued` at now = 9. -/
def samplePublishingReset : Entry :=
  { samplePublishing with status := "queued", updatedAt := TimeStr.valid 9 }

/-- Claim C2 counterexample: a store holding one published entry satisfies
the biconditional, `ResetToQueued` of that entry succeeds, and the result
has status "queued" with publishedAt still set — the biconditional is
broken because `ResetToQueued` does not clear publishedAt. -/
theorem resetToQueued_published_breaks_invariant :
    [samplePublished].all pubAtInvariant = true
    ∧ ResetToQueued 7 "p1" [samplePublished] = some [samplePublishedReset]
    ∧ [samplePublishedReset].all pubAtInvariant = false := by
  decide

theorem updateFirst_all_preserve {p : Entry → Bool} {f : Entry → Entry}
    {inv : Entry → Bool} :
    ∀ {l l' : List Entry}, updateFirst p f l = some l' → l.all inv = true →
      (∀ e ∈ l, p e = true → inv e = true → inv (f e) = true) →
      l'.all inv = true := by
  intro l
  induction l with
  | nil => intro l' h; simp [updateFirst] at h
  | cons e rest ih =>
    intro l' h hall hf
    rw [List.all_cons, Bool.and_eq_true] at hall
    by_cases hp : p e = true
    · simp [updateFirst, hp] at h
      rw [← h, List.all_cons, Bool.and_eq_true]
      exact ⟨hf e (by simp) hp hall.1, hall.2⟩
    · simp [updateFirst, hp] at h
      obtain ⟨m, hm, rfl⟩ := h
      rw [List.all_cons, Bool.and_eq_true]
      exact ⟨hall.1, ih hm hall.2 (fun x hx => hf x (List.mem_cons_of_mem _ hx))⟩

theorem recoverOne_preserves_pubAtInvariant (now timeout : Int) (e : Entry)
    (h : pubAtInvariant e = true) :
    pubAtInvariant (recoverOne now timeout e) = true := by
  by_cases hs : (e.status == "publishing") = true
  · have hstatus : e.status = "publishing" := by simpa using hs
    have hpub : e.publishedAt = TimeStr.empty := by
      by_contra hne
      exact absurd (((pubAtInvariant_iff e).mp h).mp hne) (by rw [hstatus]; decide)
    cases hup : e.updatedAt with
    | valid u =>
      by_cases ht : now - u > timeout
      · rw [show recoverOne now timeout e
              = { e with status := "queued", updatedAt := TimeStr.valid now } from by
            simp [recoverOne, hs, hup, ht]]
        rw [pubAtInvariant_iff]
        simp [hpub]
      · rw [show recoverOne now timeout e = e from by simp [recoverOne, hs, hup, ht]]
        exact h
    | empty =>
      rw [show recoverOne now timeout e = e from by simp [recoverOne, hs, hup]]
      exact h
    | invalid s =>
      rw [show recoverOne now timeout e = e from by simp [recoverOne, hs, hup]]
      exact h
  · rw [show recoverOne now timeout e = e from by simp [recoverOne, hs]]
    exact h

theorem claimNextReady_preserves_pubAtInvariant (now : Int) :
    ∀ entries : List Entry, entries.all pubAtInvariant = true →
      ((ClaimNextReady now entries).2.1).all pubAtInvariant = true := by
  intro entries
  induction entries with
  | nil => intro _; rfl
  | cons a rest ih =>
    intro hall
    rw [List.all_cons, Bool.and_eq_true] at hall
    by_cases hr : readyAt now a = true
    · have hstatus : a.status = "queued" := by
        have h1 := hr
        unfold readyAt at h1
        rw [Bool.and_eq_true] at h1
        simpa using h1.1
      have hpub : a.publishedAt = TimeStr.empty := by
        by_contra hne
        exact absurd (((pubAtInvariant_iff a).mp hall.1).mp hne)
          (by rw [hstatus]; decide)
      simp only [ClaimNextReady, if_pos hr]
      rw [List.all_cons, Bool.and_eq_true]
      refine ⟨?_, hall.2⟩
      rw [pubAtInvariant_iff]
      simp [claimUpdate, hpub]
    · simp only [ClaimNextReady, if_neg hr]
      have hrec := ih hall.2
      rcases hCN : ClaimNextReady now rest with ⟨r, rest2, w⟩
      rw [hCN] at hrec
      simp only [hCN]
      show (a :: rest2).all pubAtInvariant = true
      rw [List.all_cons, Bool.and_eq_true]
      exact ⟨hall.1, hrec⟩

/-- Claim C2 (amended): every store operation preserves the biconditional
"publishedAt is set iff status is published", except that `ResetToQueued`
preserves it only when no entry carrying the targeted id is "published"
(it does not clear publishedAt, so resetting a published entry breaks the
biconditional, as the counterexample shows); `Append` preserves it
whenever the loaded document is not legacy-shaped. -/
theorem store_ops_preserve_publishedAt_iff :
    (∀ (hash : TimeStr → Nat → String → String) (newId message status : String)
        (now : Int) (scheduledAt : Option Int) (entries : List Entry)
        (legacyView : Option (List LegacyEntry)),
        needsMigration entries legacyView = false →
        entries.all pubAtInvariant = true →
        ((Append hash newId message status now scheduledAt entries legacyView).2).all
          pubAtInvariant = true)
    ∧ (∀ (now : Int) (entries : List Entry), entries.all pubAtInvariant = true →
        ((ClaimNextReady now entries).2.1).all pubAtInvariant = true)
    ∧ (∀ (now : Int) (id : String) (entries l : List Entry),
        entries.all pubAtInvariant = true →
        MarkPublished now id entries = some l → l.all pubAtInvariant = true)
    ∧ (∀ (now : Int) (id : String) (entries l : List Entry),
        entries.all pubAtInvariant = true →
        (∀ e ∈ entries, e.id = id → e.status ≠ "published") →
        ResetToQueued now id entries = some l → l.all pubAtInvariant = true)
    ∧ (∀ (now timeout : Int) (entries : List Entry),
        entries.all pubAtInvariant = true →
        (RecoverStuck now timeout entries).all pubAtInvariant = true) := by
  refine ⟨?_, claimNextReady_preserves_pubAtInvariant, ?_, ?_, ?_⟩
  · intro hash newId message status now scheduledAt entries legacyView hmig hall
    have hnew : pubAtInvariant (newEntry newId message status now scheduledAt) = true := by
      rw [pubAtInvariant_iff]
      by_cases hs : status = "published"
      · have hsb : (status == "published") = true := by simpa using hs
        simp [newEntry, hsb, hs]
      · have hsb : (status == "published") = false := by simpa using hs
        simp [newEntry, hsb, hs]
    have hbase : (entries ++ [newEntry newId message status now scheduledAt]).all
        pubAtInvariant = true := by
      rw [List.all_append, Bool.and_eq_true]
      exact ⟨hall, by simpa using hnew⟩
    have happ : (Append hash newId message status now scheduledAt entries legacyView).2
        = enforceMaxEntries (entries ++ [newEntry newId message status now scheduledAt]) := by
      show enforceMaxEntries (migrateIfNeeded hash entries legacyView
          ++ [newEntry newId message status now scheduledAt]) = _
      rw [migrateIfNeeded, if_neg (by simp [hmig])]
    rw [happ]
    exact all_of_sublist (enforceMaxEntries_sublist _) hbase
  · intro now id entries l hall hup
    refine updateFirst_all_preserve hup hall ?_
    intro e _ _ _
    rw [pubAtInvariant_iff]
    simp
  · intro now id entries l hall hne hup
    refine updateFirst_all_preserve hup hall ?_
    intro e he hp hinv
    have hid : e.id = id := by simpa using hp
    have hstatus : e.status ≠ "published" := hne e he hid
    have hpub : e.publishedAt = TimeStr.empty := by
      by_contra hne2
      exact hstatus (((pubAtInvariant_iff e).mp hinv).mp hne2)
    rw [pubAtInvariant_iff]
    simp [hpub]
  · intro now timeout entries hall
    rw [RecoverStuck, List.all_eq_true]
    intro x hx
    rw [List.mem_map] at hx
    obtain ⟨e, he, rfl⟩ := hx
    exact recoverOne_preserves_pubAtInvariant now timeout e
      (List.all_eq_true.mp hall e he)

/-- Witness for claim C2 (amended): resetting a (non-published) publishing
entry preserves the biconditional. -/
theorem store_ops_preserve_publishedAt_iff_witness :
    [samplePublishingReset].all pubAtInvariant = true :=
  store_ops_preserve_publishedAt_iff.2.2.2.1 9 "w1" [samplePublishing]
    [samplePublishingReset] (by decide) (by decide) (by decide)

/-! ## Claim C3 -/

/-- Claim C3 counterexample: `generateID` draws 8 random hex characters
without consulting the store, so the generated id can equal an id already
present; appending with such an id yields a store whose ids are no longer
pairwise distinct. -/
theorem append_collision_duplicates_ids :
    ([sampleQueued].map Entry.id).Nodup
    ∧ "q1" ∈ [sampleQueued].map Entry.id
    ∧ ¬ (((Append (fun _ _ _ => "h") "q1" "another" "queued" 5 none
            [sampleQueued] none).2).map Entry.id).Nodup := by
  decide

/-- Claim C3 (amended): `Append` preserves pairwise-distinct ids provided
the generated id differs from every id already in the store (the code does
not enforce this: the id is 8 random hex characters, falling back to a
timestamp-derived id, with no check against existing ids); migration is
assumed not to trigger. -/
theorem append_fresh_id_preserves_uniqueness
    (hash : TimeStr → Nat → String → String) (newId message status : String)
    (now : Int) (scheduledAt : Option Int) (entries : List Entry)
    (legacyView : Option (List LegacyEntry))
    (hnodup : (entries.map Entry.id).Nodup)
    (hfresh : newId ∉ entries.map Entry.id)
    (hmig : needsMigration entries legacyView = false) :
    (((Append hash newId message status now scheduledAt entries
        legacyView).2).map Entry.id).Nodup := by
  have hbase : ((entries ++ [newEntry newId message status now scheduledAt]).map
      Entry.id).Nodup := by
    rw [List.map_append, List.nodup_append]
    refine ⟨hnodup, by simp, ?_⟩
    intro x hx
    simp only [newEntry, List.map_cons, List.map_nil, List.mem_singleton]
    intro hxe
    exact hfresh (hxe ▸ hx)
  have happ : (Append hash newId message status now scheduledAt entries legacyView).2
      = enforceMaxEntries (entries ++ [newEntry newId message status now scheduledAt]) := by
    show enforceMaxEntries (migrateIfNeeded hash entries legacyView
        ++ [newEntry newId message status now scheduledAt]) = _
    rw [migrateIfNeeded, if_neg (by simp [hmig])]
  rw [happ]
  exact List.Nodup.sublist ((enforceMaxEntries_sublist _).map Entry.id) hbase

/-- Witness for claim C3 (amended): appending a fresh id "ab12cd34" to a
one-entry store keeps ids pairwise distinct. -/
theorem append_fresh_id_preserves_uniqueness_witness :
    (((Append (fun _ _ _ => "h") "ab12cd34" "another" "queued" 5 none
        [sampleQueued] none).2).map Entry.id).Nodup :=
  append_fresh_id_preserves_uniqueness (fun _ _ _ => "h") "ab12cd34" "another"
    "queued" 5 none [sampleQueued] none (by decide) (by decide) (by decide)

/-! ## Claim C7 -/

theorem claimNextReady_some_mem (now : Int) :
    ∀ {entries l2 : List Entry} {en : Entry} {w : Bool},
      ClaimNextReady now entries = (some en, l2, w) → en ∈ l2 := by
  intro entries
  induction entries with
  | nil => intro l2 en w h; simp [ClaimNextReady] at h
  | cons e rest ih =>
    intro l2 en w h
    by_cases hr : readyAt now e = true
    · simp only [ClaimNextReady, if_pos hr, Prod.mk.injEq, Option.some.injEq] at h
      obtain ⟨rfl, rfl, -⟩ := h
      exact List.mem_cons_self _ _
    · simp only [ClaimNextReady, if_neg hr] at h
      rcases hCN : ClaimNextReady now rest with ⟨r, rest2, w2⟩
      rw [hCN] at h
      simp only [Prod.mk.injEq] at h
      obtain ⟨hr2, hl2, -⟩ := h
      rw [hr2] at hCN
      rw [← hl2]
      exact List.mem_cons_of_mem e (ih hCN)

/-- Finding and resetting an entry whose id occurs in the list: the write
succeeds, some entry with that id ends up "queued", and nothing is removed
(length and the id sequence are preserved). -/
theorem resetToQueued_found (now : Int) (id : String) :
    ∀ entries : List Entry, (∃ x ∈ entries, x.id = id) →
      ∃ l, ResetToQueued now id entries = some l
        ∧ (∃ x ∈ l, x.id = id ∧ x.status = "queued")
        ∧ l.length = entries.length
        ∧ l.map Entry.id = entries.map Entry.id := by
  intro entries
  induction entries with
  | nil => intro h; simp at h
  | cons a rest ih =>
    intro hex
    by_cases hp : (a.id == id) = true
    · have haid : a.id = id := by simpa using hp
      refine ⟨{ a with status := "queued", updatedAt := TimeStr.valid now } :: rest,
        ?_, ?_, by simp, by simp [haid]⟩
      · simp [ResetToQueued, updateFirst, hp]
      · exact ⟨{ a with status := "queued", updatedAt := TimeStr.valid now },
          by simp, by simpa using hp, rfl⟩
    · have hex' : ∃ x ∈ rest, x.id = id := by
        rcases hex with ⟨x, hx, hxid⟩
        rcases List.mem_cons.mp hx with rfl | hxr
        · exact absurd (by simpa using hxid) hp
        · exact ⟨x, hxr, hxid⟩
      obtain ⟨m, hm, hprop, hlen, hmap⟩ := ih hex'
      have hm' : updateFirst (fun e => e.id == id)
          (fun e => { e with status := "queued", updatedAt := TimeStr.valid now })
          rest = some m := hm
      refine ⟨a :: m, ?_, ?_, by simp [hlen], by simp [hmap]⟩
      · simp [ResetToQueued, updateFirst, hp, hm']
      · obtain ⟨x, hx, hxp⟩ := hprop
        exact ⟨x, List.mem_cons_of_mem a hx, hxp⟩

/-- The in-place update `MarkPublished` applies to the matched entry. -/
def publishUpdate (now : Int) (e : Entry) : Entry :=
  { e with status := "published", publishedAt := TimeStr.valid now,
           updatedAt := TimeStr.valid now }

/-- Finding and marking an entry whose id occurs in the list: the write
succeeds, some entry with that id ends up "published" with publishedAt
stamped now, and nothing is removed (length and the id sequence are
preserved). -/
theorem markPublished_found (now : Int) (id : String) :
    ∀ entries : List Entry, (∃ x ∈ entries, x.id = id) →
      ∃ l, MarkPublished now id entries = some l
        ∧ (∃ x ∈ l, x.id = id ∧ x.status = "published"
            ∧ x.publishedAt = TimeStr.valid now)
        ∧ l.length = entries.length
        ∧ l.map Entry.id = entries.map Entry.id := by
  intro entries
  induction entries with
  | nil => intro h; simp at h
  | cons a rest ih =>
    intro hex
    by_cases hp : (a.id == id) = true
    · have haid : a.id = id := by simpa using hp
      refine ⟨publishUpdate now a :: rest, ?_, ?_, by simp,
        by simp [publishUpdate, haid]⟩
      · simp [MarkPublished, updateFirst, publishUpdate, hp]
      · exact ⟨publishUpdate now a, by simp,
          by simpa [publishUpdate] using hp, rfl, rfl⟩
    · have hex' : ∃ x ∈ rest, x.id = id := by
        rcases hex with ⟨x, hx, hxid⟩
        rcases List.mem_cons.mp hx with rfl | hxr
        · exact absurd (by simpa using hxid) hp
        · exact ⟨x, hxr, hxid⟩
      obtain ⟨m, hm, hprop, hlen, hmap⟩ := ih hex'
      have hm' : updateFirst (fun e => e.id == id)
          (fun e => publishUpdate now e) rest = some m := hm
      refine ⟨a :: m, ?_, ?_, by simp [hlen], by simp [hmap]⟩
      · show updateFirst (fun e => e.id == id)
          (fun e => publishUpdate now e) (a :: rest) = some (a :: m)
        simp [updateFirst, hp, hm']
      · obtain ⟨x, hx, hxp⟩ := hprop
        exact ⟨x, List.mem_cons_of_mem a hx, hxp⟩

/-- Claim C7: when the schedule and frequency guards pass and an entry is
claimed, a sender failure makes `publishOne` reset that entry back to
"queued" via `ResetToQueued` and surface the `webhook_failed` outcome —
the store keeps an entry with the claimed id, now "queued" (so neither
removed, nor published, nor left "publishing"), and no entry is removed
(length and id sequence preserved); when the sender succeeds the outcome
is `ok` whether or not the finalize step persists, and when the finalize
persist succeeds the post-state is `MarkPublished` of the claimed id: an
entry with that id ends "published" with publishedAt stamped now; a
finalize-persist failure leaves the document as the claim wrote it,
still with outcome `ok`. -/
theorem publish_send_failure_resets_entry (s : Schedule) (now : Int)
    (finalizeOk : Bool) (entries e2 : List Entry) (entry : Entry) (w : Bool)
    (hact : IsActiveAt s now = true)
    (hfreq : freqGuard s now entries = none)
    (hclaim : ClaimNextReady now (RecoverStuck now stuckTimeout entries)
      = (some entry, e2, w)) :
    (∃ l, ResetToQueued now entry.id e2 = some l
      ∧ publishOne s now false finalizeOk entries = (Outcome.webhookFailed, l)
      ∧ (∃ x ∈ l, x.id = entry.id ∧ x.status = "queued")
      ∧ l.length = e2.length
      ∧ l.map Entry.id = e2.map Entry.id)
    ∧ (publishOne s now true finalizeOk entries).1 = Outcome.ok
    ∧ (∃ m, MarkPublished now entry.id e2 = some m
      ∧ publishOne s now true true entries = (Outcome.ok, m)
      ∧ (∃ x ∈ m, x.id = entry.id ∧ x.status = "published"
          ∧ x.publishedAt = TimeStr.valid now)
      ∧ m.length = e2.length
      ∧ m.map Entry.id = e2.map Entry.id)
    ∧ publishOne s now true false entries = (Outcome.ok, e2) := by
  have hmem : entry ∈ e2 := claimNextReady_some_mem now hclaim
  obtain ⟨l, hl, hx, hlen, hmap⟩ :=
    resetToQueued_found now entry.id e2 ⟨entry, hmem, rfl⟩
  obtain ⟨m, hm, hmx, hmlen, hmmap⟩ :=
    markPublished_found now entry.id e2 ⟨entry, hmem, rfl⟩
  have hrun : ∀ sendOk fOk : Bool, publishOne s now sendOk fOk entries
      = (if sendOk then
          (Outcome.ok,
           if fOk then (MarkPublished now entry.id e2).getD e2 else e2)
         else
          (Outcome.webhookFailed, (ResetToQueued now entry.id e2).getD e2)) := by
    intro sendOk fOk
    simp only [publishOne, hact, hfreq, hclaim]
    rw [if_neg (by decide)]
  refine ⟨⟨l, hl, ?_, hx, hlen, hmap⟩, ?_, ⟨m, hm, ?_, hmx, hmlen, hmmap⟩, ?_⟩
  · rw [hrun false finalizeOk, if_neg (by decide), hl]
    rfl
  · rw [hrun true finalizeOk, if_pos rfl]
  · rw [hrun true true, if_pos rfl, if_pos rfl, hm]
    rfl
  · rw [hrun true false, if_pos rfl, if_neg (by decide)]

/-- Witness for claim C7: an active Monday-09:00 store with a single queued
entry; the sender fails (respectively succeeds, with and without the
finalize persist). -/
theorem publish_send_failure_resets_entry_witness :
    (∃ l, ResetToQueued 540 (claimUpdate 540 sampleQueued).id
            [claimUpdate 540 sampleQueued] = some l
      ∧ publishOne DefaultSchedule 540 false true [sampleQueued]
          = (Outcome.webhookFailed, l)
      ∧ (∃ x ∈ l, x.id = (claimUpdate 540 sampleQueued).id ∧ x.status = "queued")
      ∧ l.length = ([claimUpdate 540 sampleQueued] : List Entry).length
      ∧ l.map Entry.id = ([claimUpdate 540 sampleQueued] : List Entry).map Entry.id)
    ∧ (publishOne DefaultSchedule 540 true true [sampleQueued]).1 = Outcome.ok
    ∧ (∃ m, MarkPublished 540 (claimUpdate 540 sampleQueued).id
            [claimUpdate 540 sampleQueued] = some m
      ∧ publishOne DefaultSchedule 540 true true [sampleQueued] = (Outcome.ok, m)
      ∧ (∃ x ∈ m, x.id = (claimUpdate 540 sampleQueued).id ∧ x.status = "published"
          ∧ x.publishedAt = TimeStr.valid 540)
      ∧ m.length = ([claimUpdate 540 sampleQueued] : List Entry).length
      ∧ m.map Entry.id = ([claimUpdate 540 sampleQueued] : List Entry).map Entry.id)
    ∧ publishOne DefaultSchedule 540 true false [sampleQueued]
        = (Outcome.ok, [claimUpdate 540 sampleQueued]) :=
  publish_send_failure_resets_entry DefaultSchedule 540 true [sampleQueued]
    [claimUpdate 540 sampleQueued] (claimUpdate 540 sampleQueued) true
    (by decide) (by decide) (by decide)

/-! ## Claim C4 -/

theorem dropFirstWhere_none {p : Entry → Bool} :
    ∀ {l : List Entry}, dropFirstWhere p l = none → l.countP p = 0 := by
  intro l
  induction l with
  | nil => intro _; rfl
  | cons e rest ih =>
    intro h
    by_cases hp : p e = true
    · simp [dropFirstWhere, hp] at h
    · simp [dropFirstWhere, hp] at h
      simp [List.countP_cons, hp, ih h]

theorem dropFirstWhere_some_filter {p : Entry → Bool} :
    ∀ {l l' : List Entry}, dropFirstWhere p l = some l' →
      l'.filter p = (l.filter p).tail
      ∧ (∀ q : Entry → Bool, (∀ x : Entry, p x = true → q x = false) →
          l'.filter q = l.filter q)
      ∧ l'.countP p + 1 = l.countP p := by
  intro l
  induction l with
  | nil => intro l' h; simp [dropFirstWhere] at h
  | cons e rest ih =>
    intro l' h
    by_cases hp : p e = true
    · simp [dropFirstWhere, hp] at h
      subst h
      refine ⟨by simp [List.filter_cons_of_pos hp], ?_, ?_⟩
      · intro q hq
        rw [List.filter_cons_of_neg (by simp [hq e hp])]
      · simp [List.countP_cons, hp]
    · simp [dropFirstWhere, hp] at h
      obtain ⟨m, hm, rfl⟩ := h
      obtain ⟨ih1, ih2, ih3⟩ := ih hm
      refine ⟨?_, ?_, ?_⟩
      · rw [List.filter_cons_of_neg (by simp [hp]),
          List.filter_cons_of_neg (by simp [hp]), ih1]
      · intro q hq
        by_cases hqe : q e = true
        · rw [List.filter_cons_of_pos hqe, List.filter_cons_of_pos hqe, ih2 q hq]
        · rw [List.filter_cons_of_neg (by simp [hqe]),
            List.filter_cons_of_neg (by simp [hqe]), ih2 q hq]
      · simp [List.countP_cons, hp, ih3]

theorem evictLoop_of_le {p : Entry → Bool} (l : List Entry)
    (h : l.length ≤ maxEntries) : evictLoop p l = l := by
  rw [evictLoop, if_neg (by omega)]

theorem evictLoop_step {p : Entry → Bool} {l l' : List Entry}
    (hlen : l.length > maxEntries) (h : dropFirstWhere p l = some l') :
    evictLoop p l = evictLoop p l' := by
  rw [evictLoop, if_pos hlen, h]

theorem evictLoop_fix {p : Entry → Bool} {l : List Entry}
    (h : dropFirstWhere p l = none) : evictLoop p l = l := by
  by_cases hlen : l.length > maxEntries
  · rw [evictLoop, if_pos hlen, h]
  · rw [evictLoop, if_neg hlen]

/-- The first eviction loop when the list holds at least as many
`p`-entries as the overshoot: the oldest overshoot-many `p`-entries are
removed, every non-`p` entry survives, and the length comes back exactly
to the cap. -/
theorem evictLoop_enough {p : Entry → Bool} :
    ∀ l : List Entry, l.length - maxEntries ≤ l.countP p →
      (evictLoop p l).filter p = (l.filter p).drop (l.length - maxEntries)
      ∧ (∀ q : Entry → Bool, (∀ x : Entry, p x = true → q x = false) →
          (evictLoop p l).filter q = l.filter q)
      ∧ (evictLoop p l).length = l.length - (l.length - maxEntries) := by
  intro l
  generalize hn : l.length = n
  induction n using Nat.strong_induction_on generalizing l with
  | _ n ih =>
    intro hcnt
    by_cases hlen : l.length > maxEntries
    · have hc1 : l.countP p ≠ 0 := by omega
      cases hdrop : dropFirstWhere p l with
      | none => exact absurd (dropFirstWhere_none hdrop) hc1
      | some l' =>
        obtain ⟨hfp, hfq, hcp⟩ := dropFirstWhere_some_filter hdrop
        have hlen' : l'.length + 1 = l.length := dropFirstWhere_length hdrop
        have hstep := evictLoop_step hlen hdrop
        obtain ⟨ih1, ih2, ih3⟩ :=
          ih l'.length (by omega) l' rfl (by omega)
        refine ⟨?_, ?_, ?_⟩
        · rw [hstep, ih1, hfp]
          have htail : (l.filter p).tail = (l.filter p).drop 1 := by
            simp [List.tail_drop]
          rw [htail, List.drop_drop]
          have harith : 1 + (l'.length - maxEntries) = n - maxEntries := by
            omega
          rw [harith]
        · intro q hq
          rw [hstep, ih2 q hq, hfq q hq]
        · rw [hstep, ih3]
          omega
    · rw [evictLoop_of_le l (by omega)]
      have h0 : n - maxEntries = 0 := by omega
      rw [h0]
      exact ⟨by simp, fun q _ => rfl, by omega⟩

/-- The eviction loop when there are fewer `p`-entries than the overshoot:
every `p`-entry is removed and everything else survives in order. -/
theorem evictLoop_exhausts {p : Entry → Bool} :
    ∀ l : List Entry, l.countP p < l.length - maxEntries →
      evictLoop p l = l.filter (fun x => !(p x)) := by
  intro l
  generalize hn : l.length = n
  induction n using Nat.strong_induction_on generalizing l with
  | _ n ih =>
    intro hcnt
    have hlen : l.length > maxEntries := by omega
    cases hdrop : dropFirstWhere p l with
    | none =>
      have hc0 : l.countP p = 0 := dropFirstWhere_none hdrop
      rw [evictLoop_fix hdrop]
      symm
      rw [List.filter_eq_self]
      intro a ha
      have := List.countP_eq_zero.mp hc0 a ha
      simpa using this
    | some l' =>
      obtain ⟨hfp, hfq, hcp⟩ := dropFirstWhere_some_filter hdrop
      have hlen' : l'.length + 1 = l.length := dropFirstWhere_length hdrop
      rw [evictLoop_step hlen hdrop,
        ih l'.length (by omega) l' rfl (by omega),
        hfq (fun x => !(p x)) (fun x hx => by simp [hx])]

theorem que_not_pub {e : Entry} (h : (e.status == "queued") = true) :
    (e.status == "published") = false := by
  have hs : e.status = "queued" := by simpa using h
  rw [hs]
  decide

theorem pubpub_false (e : Entry) :
    ((e.status == "published") && !(e.status == "published")) = false := by
  cases hx : e.status == "published" <;> rfl

theorem que_and_notpub (e : Entry) :
    ((e.status == "queued") && !(e.status == "published"))
      = (e.status == "queued") := by
  cases hx : e.status == "queued"
  · rfl
  · rw [que_not_pub hx]
    rfl

theorem neither_and_notpub (e : Entry) :
    ((!(e.status == "published") && !(e.status == "queued"))
        && !(e.status == "published"))
      = (!(e.status == "published") && !(e.status == "queued")) := by
  cases hp : e.status == "published" <;> cases hq : e.status == "queued" <;> rfl

theorem notque_and_notpub (e : Entry) :
    ((!(e.status == "queued")) && !(e.status == "published"))
      = (!(e.status == "published") && !(e.status == "queued")) := by
  cases hp : e.status == "published" <;> cases hq : e.status == "queued" <;> rfl

theorem enforceMaxEntries_eq_over {entries : List Entry}
    (h : maxEntries < entries.length) :
    enforceMaxEntries entries =
      if (evictLoop (fun e => e.status == "queued")
            (evictLoop (fun e => e.status == "published") entries)).length > maxEntries
      then (evictLoop (fun e => e.status == "queued")
             (evictLoop (fun e => e.status == "published") entries)).drop
             ((evictLoop (fun e => e.status == "queued")
               (evictLoop (fun e => e.status == "published") entries)).length - maxEntries)
      else evictLoop (fun e => e.status == "queued")
             (evictLoop (fun e => e.status == "published") entries) := by
  rw [enforceMaxEntries, if_neg (by omega)]

/-- Branch A of `enforceMaxEntries`: there are at least as many "published"
entries as the overshoot, so dropping oldest published entries alone
reaches the cap; the second loop and the hard trim do nothing. -/
theorem enforceMaxEntries_published_enough {entries : List Entry}
    (h : maxEntries < entries.length)
    (hc : entries.length - maxEntries
      ≤ entries.countP (fun e => e.status == "published")) :
    (enforceMaxEntries entries).length = maxEntries
    ∧ (enforceMaxEntries entries).filter (fun e => e.status == "published")
        = (entries.filter (fun e => e.status == "published")).drop
            (entries.length - maxEntries)
    ∧ (enforceMaxEntries entries).filter (fun e => !(e.status == "published"))
        = entries.filter (fun e => !(e.status == "published")) := by
  obtain ⟨a1, a2, a3⟩ := evictLoop_enough entries hc
  have haLen : (evictLoop (fun e => e.status == "published") entries).length
      = maxEntries := by omega
  have hres : enforceMaxEntries entries
      = evictLoop (fun e => e.status == "published") entries := by
    rw [enforceMaxEntries_eq_over h,
      evictLoop_of_le (evictLoop (fun e => e.status == "published") entries)
        (by omega),
      if_neg (by omega)]
  refine ⟨by rw [hres, haLen], by rw [hres, a1], ?_⟩
  rw [hres, a2 (fun e => !(e.status == "published")) (fun x hx => by simp [hx])]

/-- Branch B of `enforceMaxEntries`: published entries alone do not cover
the overshoot but published plus queued do; the first loop removes every
published entry, the second drops oldest queued entries down to the cap,
and the hard trim does nothing. -/
theorem enforceMaxEntries_queued_phase {entries : List Entry}
    (h : maxEntries < entries.length)
    (hcA : entries.countP (fun e => e.status == "published")
      < entries.length - maxEntries)
    (hcB : entries.length - maxEntries
      ≤ entries.countP (fun e => e.status == "published")
        + entries.countP (fun e => e.status == "queued")) :
    (enforceMaxEntries entries).length = maxEntries
    ∧ (enforceMaxEntries entries).filter (fun e => e.status == "published") = []
    ∧ (enforceMaxEntries entries).filter (fun e => e.status == "queued")
        = (entries.filter (fun e => e.status == "queued")).drop
            (entries.length - maxEntries
              - entries.countP (fun e => e.status == "published"))
    ∧ (enforceMaxEntries entries).filter
          (fun e => !(e.status == "published") && !(e.status == "queued"))
        = entries.filter
            (fun e => !(e.status == "published") && !(e.status == "queued")) := by
  have ha : evictLoop (fun e => e.status == "published") entries
      = entries.filter (fun e => !(e.status == "published")) :=
    evictLoop_exhausts entries hcA
  have haLen : (entries.filter (fun e => !(e.status == "published"))).length
      = entries.length - entries.countP (fun e => e.status == "published") := by
    rw [(List.countP_eq_length_filter
      (p := fun e => !(e.status == "published")) entries).symm]
    have := List.length_eq_countP_add_countP
      (p := fun e => e.status == "published") entries
    have hcompl : List.countP
        (fun a => decide (¬(a.status == "published") = true)) entries
        = List.countP (fun e => !(e.status == "published")) entries := by
      apply List.countP_congr
      intro x _
      cases hx : x.status == "published" <;> simp [hx]
    omega
  have hcque : (entries.filter (fun e => !(e.status == "published"))).countP
      (fun e => e.status == "queued")
      = entries.countP (fun e => e.status == "queued") := by
    rw [List.countP_filter (p := fun e => e.status == "queued") _ entries]
    apply List.countP_congr
    intro x _
    cases hx : x.status == "queued"
    · simp [hx]
    · simp [hx, que_not_pub hx]
  obtain ⟨b1, b2, b3⟩ := evictLoop_enough
    (entries.filter (fun e => !(e.status == "published")))
    (p := fun e => e.status == "queued")
    (by rw [hcque]; omega)
  have hbLen : (evictLoop (fun e => e.status == "queued")
      (entries.filter (fun e => !(e.status == "published")))).length
      = maxEntries := by omega
  have hres : enforceMaxEntries entries
      = evictLoop (fun e => e.status == "queued")
          (entries.filter (fun e => !(e.status == "published"))) := by
    rw [enforceMaxEntries_eq_over h, ha, if_neg (by omega)]
  have hc1 : List.filter
      (fun a => (a.status == "published") && !(a.status == "published")) entries
      = List.filter (fun _ => false) entries :=
    List.filter_congr (fun x _ => pubpub_false x)
  have hc2 : List.filter
      (fun a => (a.status == "queued") && !(a.status == "published")) entries
      = List.filter (fun e => e.status == "queued") entries :=
    List.filter_congr (fun x _ => que_and_notpub x)
  have hc3 : List.filter
      (fun a => (!(a.status == "published") && !(a.status == "queued"))
        && !(a.status == "published")) entries
      = List.filter
        (fun e => !(e.status == "published") && !(e.status == "queued")) entries :=
    List.filter_congr (fun x _ => neither_and_notpub x)
  refine ⟨by rw [hres, hbLen], ?_, ?_, ?_⟩
  · rw [hres, b2 (fun e => e.status == "published") (fun x hx => que_not_pub hx),
      List.filter_filter (p := fun e => e.status == "published")
        (fun e => !(e.status == "published")) entries,
      hc1, List.filter_false]
  · rw [hres, b1,
      show (entries.filter (fun e => !(e.status == "published"))).length - maxEntries
          = entries.length - maxEntries
            - entries.countP (fun e => e.status == "published") from by omega,
      List.filter_filter (p := fun e => e.status == "queued")
        (fun e => !(e.status == "published")) entries,
      hc2]
  · rw [hres, b2 (fun e => !(e.status == "published") && !(e.status == "queued"))
        (fun x hx => by simp [hx]),
      List.filter_filter
        (p := fun e => !(e.status == "published") && !(e.status == "queued"))
        (fun e => !(e.status == "published")) entries,
      hc3]

/-- Branch C of `enforceMaxEntries`: even removing every published and
every queued entry leaves the list over the cap, so the hard trim drops
from the front of what remains. -/
theorem enforceMaxEntries_hard_trim {entries : List Entry}
    (h : maxEntries < entries.length)
    (hcC : entries.countP (fun e => e.status == "published")
        + entries.countP (fun e => e.status == "queued")
      < entries.length - maxEntries) :
    enforceMaxEntries entries
      = (entries.filter
          (fun e => !(e.status == "published") && !(e.status == "queued"))).drop
          ((entries.filter
            (fun e => !(e.status == "published") && !(e.status == "queued"))).length
            - maxEntries)
    ∧ (enforceMaxEntries entries).length = maxEntries := by
  have ha : evictLoop (fun e => e.status == "published") entries
      = entries.filter (fun e => !(e.status == "published")) :=
    evictLoop_exhausts entries (by omega)
  have haLen : (entries.filter (fun e => !(e.status == "published"))).length
      = entries.length - entries.countP (fun e => e.status == "published") := by
    rw [(List.countP_eq_length_filter
      (p := fun e => !(e.status == "published")) entries).symm]
    have := List.length_eq_countP_add_countP
      (p := fun e => e.status == "published") entries
    have hcompl : List.countP
        (fun a => decide (¬(a.status == "published") = true)) entries
        = List.countP (fun e => !(e.status == "published")) entries := by
      apply List.countP_congr
      intro x _
      cases hx : x.status == "published" <;> simp [hx]
    omega
  have hcque : (entries.filter (fun e => !(e.status == "published"))).countP
      (fun e => e.status == "queued")
      = entries.countP (fun e => e.status == "queued") := by
    rw [List.countP_filter (p := fun e => e.status == "queued") _ entries]
    apply List.countP_congr
    intro x _
    cases hx : x.status == "queued"
    · simp [hx]
    · simp [hx, que_not_pub hx]
  have hb : evictLoop (fun e => e.status == "queued")
      (entries.filter (fun e => !(e.status == "published")))
      = entries.filter
          (fun e => !(e.status == "published") && !(e.status == "queued")) := by
    rw [evictLoop_exhausts (entries.filter (fun e => !(e.status == "published")))
      (by rw [hcque]; omega)]
    rw [List.filter_filter (p := fun x => !(x.status == "queued")) _ entries]
    apply List.filter_congr
    intro x _
    cases hp : x.status == "published" <;> cases hq : x.status == "queued" <;>
      simp [hp, hq]
  have hbLen : (entries.filter
      (fun e => !(e.status == "published") && !(e.status == "queued"))).length
      = (entries.filter (fun e => !(e.status == "published"))).length
        - entries.countP (fun e => e.status == "queued") := by
    rw [← hb, evictLoop_exhausts (entries.filter (fun e => !(e.status == "published")))
      (by rw [hcque]; omega)]
    rw [(List.countP_eq_length_filter
      (p := fun e => !(e.status == "queued"))
      (entries.filter (fun e => !(e.status == "published")))).symm]
    have := List.length_eq_countP_add_countP
      (p := fun e => e.status == "queued")
      (entries.filter (fun e => !(e.status == "published")))
    have hcompl : List.countP (fun a => decide (¬(a.status == "queued") = true))
        (entries.filter (fun e => !(e.status == "published")))
        = List.countP (fun e => !(e.status == "queued"))
            (entries.filter (fun e => !(e.status == "published"))) := by
      apply List.countP_congr
      intro x _
      cases hx : x.status == "queued" <;> simp [hx]
    omega
  have hres : enforceMaxEntries entries
      = (entries.filter
          (fun e => !(e.status == "published") && !(e.status == "queued"))).drop
          ((entries.filter
            (fun e => !(e.status == "published") && !(e.status == "queued"))).length
            - maxEntries) := by
    rw [enforceMaxEntries_eq_over h, ha, hb, if_pos (by omega)]
  refine ⟨hres, ?_⟩
  rw [hres, List.length_drop]
  omega

/-- Claim C4: when the store exceeds the cap, eviction removes oldest
"published" entries first (and in that phase every non-published entry
survives); if published entries do not cover the overshoot it removes all
of them and then oldest "queued" entries (everything neither published nor
queued — in particular every "publishing" entry — survives); only when
even that is not enough does it hard-trim chronologically from the front;
the resulting length is exactly the cap. -/
theorem enforceMaxEntries_eviction_policy (entries : List Entry)
    (h : maxEntries < entries.length) :
    (enforceMaxEntries entries).length = maxEntries
    ∧ (enforceMaxEntries entries).Sublist entries
    ∧ (entries.length - maxEntries
          ≤ entries.countP (fun e => e.status == "published") →
        (enforceMaxEntries entries).filter (fun e => e.status == "published")
            = (entries.filter (fun e => e.status == "published")).drop
                (entries.length - maxEntries)
        ∧ (enforceMaxEntries entries).filter (fun e => !(e.status == "published"))
            = entries.filter (fun e => !(e.status == "published")))
    ∧ (entries.countP (fun e => e.status == "published")
          < entries.length - maxEntries →
        entries.length - maxEntries
            ≤ entries.countP (fun e => e.status == "published")
              + entries.countP (fun e => e.status == "queued") →
        (enforceMaxEntries entries).filter (fun e => e.status == "published") = []
        ∧ (enforceMaxEntries entries).filter (fun e => e.status == "queued")
            = (entries.filter (fun e => e.status == "queued")).drop
                (entries.length - maxEntries
                  - entries.countP (fun e => e.status == "published"))
        ∧ (enforceMaxEntries entries).filter
              (fun e => !(e.status == "published") && !(e.status == "queued"))
            = entries.filter
                (fun e => !(e.status == "published") && !(e.status == "queued")))
    ∧ (entries.countP (fun e => e.status == "published")
          + entries.countP (fun e => e.status == "queued")
        < entries.length - maxEntries →
        enforceMaxEntries entries
          = (entries.filter
              (fun e => !(e.status == "published") && !(e.status == "queued"))).drop
              ((entries.filter
                (fun e => !(e.status == "published") && !(e.status == "queued"))).length
                - maxEntries)) := by
  refine ⟨?_, enforceMaxEntries_sublist entries, ?_, ?_, ?_⟩
  · by_cases hA : entries.length - maxEntries
        ≤ entries.countP (fun e => e.status == "published")
    · exact (enforceMaxEntries_published_enough h hA).1
    · by_cases hB : entries.length - maxEntries
          ≤ entries.countP (fun e => e.status == "published")
            + entries.countP (fun e => e.status == "queued")
      · exact (enforceMaxEntries_queued_phase h (by omega) hB).1
      · exact (enforceMaxEntries_hard_trim h (by omega)).2
  · intro hA
    exact ⟨(enforceMaxEntries_published_enough h hA).2.1,
      (enforceMaxEntries_published_enough h hA).2.2⟩
  · intro hA hB
    exact ⟨(enforceMaxEntries_queued_phase h hA hB).2.1,
      (enforceMaxEntries_queued_phase h hA hB).2.2.1,
      (enforceMaxEntries_queued_phase h hA hB).2.2.2⟩
  · intro hC
    exact (enforceMaxEntries_hard_trim h hC).1

set_option maxRecDepth 4000 in
/-- Witness for claim C4: a store of 201 published entries comes back to
exactly 200, and the (empty) set of non-published entries is untouched. -/
theorem enforceMaxEntries_eviction_policy_witness :
    (enforceMaxEntries (List.replicate 201 samplePublished)).length = maxEntries
    ∧ (enforceMaxEntries (List.replicate 201 samplePublished)).filter
        (fun e => !(e.status == "published"))
      = (List.replicate 201 samplePublished).filter
          (fun e => !(e.status == "published")) :=
  ⟨(enforceMaxEntries_eviction_policy (List.replicate 201 samplePublished)
      (by decide)).1,
   ((enforceMaxEntries_eviction_policy (List.replicate 201 samplePublished)
      (by decide)).2.2.1 (by decide)).2⟩

end SlackSocial
